import Mathlib

/-!
Verification of the chunked file-transfer protocol of `draw-with-twilio`
(`src/index.js`): the Chunker (`sendFile` / `getFileChunk`), the
Reassembler (the data-track `message` handler installed by `trackAdded`),
and the transfer-parameter resolution (`getURLParameters` plus the
defaulting logic at the top of `sendFile`).

Modelling conventions:
* file contents are `List Nat` (one `Nat` per byte);
* JavaScript numbers that arise from `Number(...)` are `Option Nat`,
  `none` standing for `NaN` (all values relevant here are non-negative
  integers);
* `Math.ceil(size / chunkSize)` on non-negative integers with positive
  divisor is `ceilDiv`;
* a data-track message is either the single JSON text frame (carrying the
  parsed `{chunkSize, name, size}` record) or a binary chunk frame.
-/

namespace FileTransfer

/-- JSON metadata record sent by `sendFile`:
`JSON.stringify({chunkSize, name, size})`. -/
structure FileInfo where
  name : String
  size : Nat
  chunkSize : Nat
deriving DecidableEq

/-- One message on the data track: the text metadata frame, or one binary
chunk.  The metadata frame carries the parsed record; the JSON round trip
(`JSON.parse ∘ JSON.stringify = id`) is modelled as the identity. -/
inductive Message where
  | meta (info : FileInfo)
  | chunk (data : List Nat)
deriving DecidableEq

/-- The serialized form of the metadata frame
(`JSON.stringify({chunkSize, name, size})`, keys in source order). -/
def metaJSON (info : FileInfo) : String :=
  "\x7b\"chunkSize\":" ++ toString info.chunkSize ++ ",\"name\":\"" ++
    info.name ++ "\",\"size\":" ++ toString info.size ++ "\x7d"

/-- Bytes a message contributes when pushed into `fileBuf` and handed to
`new Blob(fileBuf)`: a binary chunk contributes its own bytes, a text
frame its UTF-8 encoding. -/
def rawBytes : Message → List Nat
  | Message.meta info => (metaJSON info).toUTF8.toList.map (fun b => b.toNat)
  | Message.chunk data => data

/-- Integer model of `Math.ceil(a / b)` for `0 < b`. -/
def ceilDiv (a b : Nat) : Nat :=
  (a + b - 1) / b

/-- Model of `getFileChunk(file, offset, chunkSize)`:
`file.slice(offset, offset + chunkSize)`, i.e. the bytes in the range
`[offset, min(offset + chunkSize, size))`. -/
def getFileChunk (content : List Nat) (offset chunkSize : Nat) : List Nat :=
  (content.drop offset).take chunkSize

/-- Model of the `for` loop of `sendFile`:
`for (let offset = 0, chunksSoFar = 0; offset < size; offset += chunkSize)`.
Each iteration reads the chunk at `offset`, sends it, and displays the
incremented `chunksSoFar`; we record the pair
(chunk sent, progress value displayed).  The guard carries `0 < chunkSize`
so the recursion is well founded (the claims all assume `chunkSize ≥ 1`;
in JavaScript `chunkSize = 0` would loop forever). -/
def sendLoop (content : List Nat) (chunkSize : Nat) (offset chunksSoFar : Nat) :
    List (List Nat × Nat) :=
  if _h : offset < content.length ∧ 0 < chunkSize then
    (getFileChunk content offset chunkSize, chunksSoFar + 1) ::
      sendLoop content chunkSize (offset + chunkSize) (chunksSoFar + 1)
  else
    []
termination_by content.length - offset
decreasing_by omega

/-- The chunks sent by `sendFile`, in send order. -/
def sendChunks (content : List Nat) (chunkSize : Nat) : List (List Nat) :=
  (sendLoop content chunkSize 0 0).map Prod.fst

/-- The successive progress values displayed by the sender
(`++chunksSoFar` out of `nChunks`). -/
def sendProgress (content : List Nat) (chunkSize : Nat) : List Nat :=
  (sendLoop content chunkSize 0 0).map Prod.snd

/-- Model of `sendFile`: the ordered list of messages placed on the data
track — first the single JSON text frame `{chunkSize, name, size}`, then
the binary chunks produced by the loop.  `size` is the file's byte
length. -/
def sendFile (name : String) (content : List Nat) (chunkSize : Nat) :
    List Message :=
  Message.meta ⟨name, content.length, chunkSize⟩ ::
    (sendChunks content chunkSize).map Message.chunk

/-- Test for a binary (chunk) frame, as opposed to the text metadata
frame. -/
def isBinary : Message → Bool
  | Message.meta _ => false
  | Message.chunk _ => true

/-- Receiver-side session state: the closure variables of the data-track
`message` handler in `trackAdded` (`chunksSoFar`, `fileBuf`, `fileInfo`,
`nChunks`). -/
structure RxState where
  chunksSoFar : Nat
  fileBuf : List (List Nat)
  fileInfo : Option FileInfo
  nChunks : Nat
deriving DecidableEq

/-- Initial (and post-completion) receiver state:
`chunksSoFar = 0, fileBuf = [], fileInfo = null, nChunks = 0`. -/
def initRx : RxState :=
  ⟨0, [], none, 0⟩

/-- A finished file as exposed to the caller on completion:
`download.download = fileInfo.name`, blob = concatenation of `fileBuf`. -/
structure Completed where
  name : String
  bytes : List Nat
deriving DecidableEq

/-- Observable effects of handling one message: the progress value
written to `download.textContent` (if any) and the completed file exposed
(if any). -/
structure RxOutput where
  progress : Option Nat
  completed : Option Completed
deriving DecidableEq

/-- Model of one firing of the receiver's `message` handler.
When `fileInfo` is null the data is parsed as metadata and the handler
returns (a binary payload would make `JSON.parse` throw, leaving the
state unchanged).  Otherwise the data is pushed onto `fileBuf`,
`chunksSoFar` is incremented and displayed; if `chunksSoFar < nChunks`
the handler returns, else the blob is exposed and the state is reset. -/
def onMessage (s : RxState) (m : Message) : RxState × RxOutput :=
  match s.fileInfo with
  | none =>
    match m with
    | Message.meta info =>
        ({ s with fileInfo := some info,
                  nChunks := ceilDiv info.size info.chunkSize },
         ⟨none, none⟩)
    | Message.chunk _ => (s, ⟨none, none⟩)
  | some info =>
    let buf := s.fileBuf ++ [rawBytes m]
    let received := s.chunksSoFar + 1
    if received < s.nChunks then
      ({ s with fileBuf := buf, chunksSoFar := received },
       ⟨some received, none⟩)
    else
      (initRx, ⟨some received, some ⟨info.name, buf.flatten⟩⟩)

/-- Feed a list of messages, in order, through the receiver handler,
collecting the observable output of each firing. -/
def runRx : List Message → RxState → RxState × List RxOutput
  | [], s => (s, [])
  | m :: rest, s =>
    let p := onMessage s m
    let q := runRx rest p.1
    (q.1, p.2 :: q.2)

/-- The completed files exposed while processing a message stream from
the initial state. -/
def completions (msgs : List Message) : List Completed :=
  ((runRx msgs initRx).2).filterMap RxOutput.completed

/-- The successive progress values displayed by the receiver while
processing a message stream from the initial state. -/
def rxProgress (msgs : List Message) : List Nat :=
  ((runRx msgs initRx).2).filterMap RxOutput.progress

/-- Decimal digits to a number, most significant first (the relevant
fragment of JavaScript `Number(string)`). -/
def parseDigits : List Char → Nat → Nat
  | [], acc => acc
  | c :: rest, acc => parseDigits rest (acc * 10 + (c.toNat - 48))

/-- Model of `Number(s)` on the strings of interest: a non-empty all-digit
string yields its value, anything else yields `NaN` (`none`). -/
def jsNumber (s : String) : Option Nat :=
  if s.data.isEmpty then none
  else if s.data.all Char.isDigit then some (parseDigits s.data 0)
  else none

/-- Model of `Map.prototype.get` on the map built by `getURLParameters`
(later pairs overwrite earlier ones, hence the reverse search);
`none` models `has(key) = false`. -/
def paramsGet (params : List (String × String)) (key : String) :
    Option String :=
  (params.reverse.find? (fun p => p.1 == key)).map Prod.snd

/-- Model of
`params.has('chunkSize') ? Number(params.get('chunkSize')) : DEFAULT_CHUNK_SIZE_BYTES`
(`DEFAULT_CHUNK_SIZE_BYTES = 16384`); `none` models `NaN`. -/
def resolveChunkSize (params : List (String × String)) : Option Nat :=
  match paramsGet params "chunkSize" with
  | some v => jsNumber v
  | none => some 16384

/-- Model of
`params.has('chunkInterval') ? Number(params.get('chunkInterval')) : DEFAULT_CHUNK_INTERVAL_MS`
(`DEFAULT_CHUNK_INTERVAL_MS = 0`); `none` models `NaN`. -/
def resolveChunkInterval (params : List (String × String)) : Option Nat :=
  match paramsGet params "chunkInterval" with
  | some v => jsNumber v
  | none => some 0

/-! ### Arithmetic facts about `ceilDiv` -/

theorem ceilDiv_zero_left (b : Nat) : ceilDiv 0 b = 0 := by
  unfold ceilDiv
  cases b with
  | zero => rfl
  | succ b => exact Nat.div_eq_of_lt (by omega)

theorem ceilDiv_eq_succ {a b : Nat} (ha : 0 < a) (hb : 0 < b) :
    ceilDiv a b = (a - 1) / b + 1 := by
  unfold ceilDiv
  have h : a + b - 1 = (a - 1) + b := by omega
  rw [h, Nat.add_div_right _ hb]

theorem ceilDiv_pos {a b : Nat} (ha : 0 < a) (hb : 0 < b) :
    0 < ceilDiv a b := by
  rw [ceilDiv_eq_succ ha hb]; exact Nat.succ_pos _

theorem ceilDiv_step {a b : Nat} (ha : 0 < a) (hb : 0 < b) :
    ceilDiv a b = ceilDiv (a - b) b + 1 := by
  rcases Nat.lt_or_ge b a with h | h
  · have ha' : 0 < a - b := by omega
    rw [ceilDiv_eq_succ ha hb, ceilDiv_eq_succ ha' hb]
    have h1 : a - 1 = (a - b - 1) + b := by omega
    rw [h1, Nat.add_div_right _ hb]
  · have h0 : a - b = 0 := by omega
    rw [h0, ceilDiv_zero_left, ceilDiv_eq_succ ha hb,
        Nat.div_eq_of_lt (by omega)]

theorem le_mul_ceilDiv {a b : Nat} (ha : 0 < a) (hb : 0 < b) :
    a ≤ b * ceilDiv a b := by
  rw [ceilDiv_eq_succ ha hb, Nat.mul_add, Nat.mul_one]
  have hdm := Nat.div_add_mod (a - 1) b
  have hm : (a - 1) % b < b := Nat.mod_lt _ hb
  generalize b * ((a - 1) / b) = X at hdm ⊢
  omega

theorem mul_ceilDiv_pred_lt {a b : Nat} (ha : 0 < a) (hb : 0 < b) :
    b * (ceilDiv a b - 1) < a := by
  rw [ceilDiv_eq_succ ha hb, Nat.add_sub_cancel, Nat.mul_comm]
  have h1 : (a - 1) / b * b ≤ a - 1 := Nat.div_mul_le_self _ _
  generalize (a - 1) / b * b = X at h1 ⊢
  omega

/-! ### Structure of the sender's loop -/

theorem sendLoop_length (content : List Nat) (C : Nat) (hC : 0 < C)
    (offset k : Nat) :
    (sendLoop content C offset k).length =
      ceilDiv (content.length - offset) C := by
  rw [sendLoop]
  split
  · next h =>
    rw [List.length_cons, sendLoop_length content C hC (offset + C) (k + 1)]
    have hd : 0 < content.length - offset := by omega
    have hstep := ceilDiv_step (a := content.length - offset) hd hC
    have he : content.length - (offset + C) = content.length - offset - C := by
      omega
    rw [he]
    omega
  · next h =>
    have h0 : content.length - offset = 0 := by omega
    rw [h0, ceilDiv_zero_left, List.length_nil]
termination_by content.length - offset
decreasing_by omega

theorem sendLoop_flatten (content : List Nat) (C : Nat) (hC : 0 < C)
    (offset k : Nat) :
    ((sendLoop content C offset k).map Prod.fst).flatten =
      content.drop offset := by
  rw [sendLoop]
  split
  · next h =>
    rw [List.map_cons, List.flatten_cons,
        sendLoop_flatten content C hC (offset + C) (k + 1)]
    simp only [getFileChunk]
    rw [← List.drop_drop C offset content]
    exact List.take_append_drop C (content.drop offset)
  · next h =>
    have h0 : content.length ≤ offset := by omega
    rw [List.drop_eq_nil_of_le h0]
    rfl
termination_by content.length - offset
decreasing_by omega

theorem sendLoop_snd (content : List Nat) (C : Nat) (hC : 0 < C)
    (offset k : Nat) :
    (sendLoop content C offset k).map Prod.snd =
      List.range' (k + 1) (ceilDiv (content.length - offset) C) := by
  rw [sendLoop]
  split
  · next h =>
    rw [List.map_cons, sendLoop_snd content C hC (offset + C) (k + 1)]
    have hd : 0 < content.length - offset := by omega
    have hstep := ceilDiv_step (a := content.length - offset) hd hC
    have he : content.length - (offset + C) = content.length - offset - C := by
      omega
    rw [he, hstep, List.range'_succ]
  · next h =>
    have h0 : content.length - offset = 0 := by omega
    rw [h0, ceilDiv_zero_left]
    rfl
termination_by content.length - offset
decreasing_by omega

theorem sendLoop_getD (content : List Nat) (C : Nat) (hC : 0 < C)
    (offset k i : Nat) :
    ((sendLoop content C offset k).map Prod.fst).getD i [] =
      if offset + C * i < content.length then
        getFileChunk content (offset + C * i) C
      else [] := by
  rw [sendLoop]
  split
  · next h =>
    cases i with
    | zero =>
      simp [h.1]
    | succ j =>
      rw [List.map_cons, List.getD_cons_succ,
          sendLoop_getD content C hC (offset + C) (k + 1) j]
      have he : offset + C + C * j = offset + C * (j + 1) := by
        rw [Nat.mul_succ]; omega
      rw [he]
  · next h =>
    have hx : offset ≤ offset + C * i := Nat.le_add_right _ _
    have hn : ¬ (offset + C * i < content.length) := by omega
    rw [if_neg hn]
    rfl
termination_by content.length - offset
decreasing_by omega

theorem sendChunks_length (content : List Nat) (C : Nat) (hC : 0 < C) :
    (sendChunks content C).length = ceilDiv content.length C := by
  rw [sendChunks, List.length_map, sendLoop_length content C hC 0 0,
      Nat.sub_zero]

theorem sendChunks_flatten (content : List Nat) (C : Nat) (hC : 0 < C) :
    (sendChunks content C).flatten = content := by
  rw [sendChunks, sendLoop_flatten content C hC 0 0, List.drop_zero]

theorem sendChunks_getD (content : List Nat) (C : Nat) (hC : 0 < C)
    (i : Nat) :
    (sendChunks content C).getD i [] =
      if C * i < content.length then getFileChunk content (C * i) C
      else [] := by
  rw [sendChunks, sendLoop_getD content C hC 0 0 i, Nat.zero_add]

theorem sendProgress_eq (content : List Nat) (C : Nat) (hC : 0 < C) :
    sendProgress content C =
      List.range' 1 (ceilDiv content.length C) := by
  rw [sendProgress, sendLoop_snd content C hC 0 0, Nat.sub_zero]

/-! ### Structure of the receiver's run -/

theorem runRx_chunks (info : FileInfo) (n : Nat) (cs : List (List Nat)) :
    ∀ (k : Nat) (B : List (List Nat)), cs ≠ [] → k + cs.length = n →
      (runRx (cs.map Message.chunk) ⟨k, B, some info, n⟩).1 = initRx ∧
      ((runRx (cs.map Message.chunk) ⟨k, B, some info, n⟩).2).filterMap
          RxOutput.progress = List.range' (k + 1) cs.length ∧
      ((runRx (cs.map Message.chunk) ⟨k, B, some info, n⟩).2).filterMap
          RxOutput.completed = [⟨info.name, (B ++ cs).flatten⟩] := by
  induction cs with
  | nil => intro k B hne _; exact absurd rfl hne
  | cons c rest ih =>
    intro k B _ hlen
    cases rest with
    | nil =>
      have hn : ¬ (k + 1 < n) := by
        simp only [List.length_cons, List.length_nil] at hlen; omega
      simp [runRx, onMessage, rawBytes, hn, List.range'_one]
    | cons d t =>
      have hlt : k + 1 < n := by
        simp only [List.length_cons] at hlen; omega
      obtain ⟨ih1, ih2, ih3⟩ := ih (k + 1) (B ++ [c]) (by simp)
        (by simp only [List.length_cons] at hlen ⊢; omega)
      refine ⟨?_, ?_, ?_⟩
      · simpa [runRx, onMessage, rawBytes, hlt] using ih1
      · simpa [runRx, onMessage, rawBytes, hlt, List.range'_succ] using ih2
      · simpa [runRx, onMessage, rawBytes, hlt] using ih3

theorem runRx_sendFile (name : String) (content : List Nat) (C : Nat)
    (hC : 0 < C) (hL : 0 < content.length) :
    (runRx (sendFile name content C) initRx).1 = initRx ∧
    rxProgress (sendFile name content C) =
      List.range' 1 (ceilDiv content.length C) ∧
    completions (sendFile name content C) = [⟨name, content⟩] := by
  have hlen : (sendChunks content C).length = ceilDiv content.length C :=
    sendChunks_length content C hC
  have hpos : 0 < ceilDiv content.length C := ceilDiv_pos hL hC
  have hne : sendChunks content C ≠ [] := by
    intro h
    rw [h, List.length_nil] at hlen
    omega
  obtain ⟨h1, h2, h3⟩ := runRx_chunks ⟨name, content.length, C⟩
    (ceilDiv content.length C) (sendChunks content C) 0 [] hne
    (by omega)
  have hstep : onMessage initRx (Message.meta ⟨name, content.length, C⟩) =
      (⟨0, [], some ⟨name, content.length, C⟩, ceilDiv content.length C⟩,
       ⟨none, none⟩) := rfl
  refine ⟨?_, ?_, ?_⟩
  · simpa [sendFile, runRx, hstep] using h1
  · rw [rxProgress, sendFile]
    simp only [runRx, hstep]
    simpa [hlen] using h2
  · rw [completions, sendFile]
    simp only [runRx, hstep]
    simpa [sendChunks_flatten content C hC] using h3

/-! ### Auxiliary facts -/

theorem filter_isBinary_chunks (l : List (List Nat)) :
    (l.map Message.chunk).filter isBinary = l.map Message.chunk := by
  induction l with
  | nil => rfl
  | cons x xs ih => simp [isBinary, ih]

theorem sendLoop_nil (C k j : Nat) :
    sendLoop ([] : List Nat) C k j = [] := by
  rw [sendLoop]
  simp

theorem chain'_le_range' : ∀ (n s : Nat),
    List.Chain' (fun a b => a ≤ b) (List.range' s n)
  | 0, _ => by simp
  | n + 1, s => by
    rw [List.range'_succ]
    cases n with
    | zero => simp
    | succ m =>
      rw [List.range'_succ, List.chain'_cons]
      refine ⟨by omega, ?_⟩
      rw [← List.range'_succ]
      exact chain'_le_range' (m + 1) (s + 1)

theorem getLast?_range' (s n : Nat) (hn : 0 < n) :
    (List.range' s n).getLast? = some (s + n - 1) := by
  obtain ⟨m, rfl⟩ : ∃ m, n = m + 1 := ⟨n - 1, by omega⟩
  rw [List.range'_concat, List.getLast?_concat]
  congr 1
  omega

theorem rxProgress_sendFile (name : String) (content : List Nat) (C : Nat)
    (hC : 0 < C) :
    rxProgress (sendFile name content C) =
      List.range' 1 (ceilDiv content.length C) := by
  rcases Nat.eq_zero_or_pos content.length with h0 | hL
  · have hc : content = [] := List.length_eq_zero.mp h0
    subst hc
    simp [rxProgress, sendFile, sendChunks, sendLoop_nil, runRx, onMessage,
      initRx, ceilDiv_zero_left]
  · exact (runRx_sendFile name content C hC hL).2.1

/-! ### The claims -/

/-- C1, counterexample to the claim as stated: for the empty byte sequence
(`L = 0`) and `chunkSize = 1`, sending the file and feeding the resulting
message stream to the receiver does NOT reproduce the original (empty)
file — no completed file is exposed at all, because the receiver only
tests its completion condition after receiving a binary chunk, and none
is ever sent. -/
theorem c1_roundTrip_counterexample :
    completions (sendFile "f" ([] : List Nat) 1) ≠
      [Completed.mk "f" []] := by
  have hsl : sendLoop ([] : List Nat) 1 0 0 = [] := sendLoop_nil 1 0 0
  simp [completions, sendFile, sendChunks, hsl, runRx, onMessage, initRx]

/-- C1 (amended to `L ≥ 1`): for every byte sequence of length `L ≥ 1` and
every `chunkSize ≥ 1`, sending the file with the Chunker (`sendFile`) and
feeding the resulting message stream, in send order, to the Reassembler
(the data-track message handler) exposes exactly one completed file whose
bytes equal the original byte-for-byte and whose reported name equals the
input name (hence the reported size, the byte count, equals the input
size). -/
theorem c1_roundTrip (name : String) (content : List Nat) (C : Nat)
    (hC : 1 ≤ C) (hL : 1 ≤ content.length) :
    completions (sendFile name content C) = [Completed.mk name content] :=
  (runRx_sendFile name content C hC hL).2.2

/-- C1, witness: the amended round trip at a concrete input. -/
theorem c1_roundTrip_witness :
    completions (sendFile "a" [7, 8, 9] 2) = [Completed.mk "a" [7, 8, 9]] :=
  c1_roundTrip "a" [7, 8, 9] 2 (by omega) (by simp)

/-- C2: the code does not satisfy this claim (code bug).  Evaluating the
receiver at the failing input — a metadata frame with `size = 0`, so
`nChunks = 0` — shows that handling the metadata frame alone exposes no
completed file: the handler stores the metadata and returns, never
testing the completion condition, and the session is left mid-transfer
(`fileInfo` non-null) awaiting a further message, contradicting the
spec's requirement that the transfer be immediately complete with an
empty file. -/
theorem c2_zero_size_metadata_only :
    completions [Message.meta ⟨"empty", 0, 1⟩] = [] ∧
    (runRx [Message.meta ⟨"empty", 0, 1⟩] initRx).1 =
      ⟨0, [], some ⟨"empty", 0, 1⟩, 0⟩ :=
  ⟨rfl, rfl⟩

/-- C3: for every file and every `chunkSize = C ≥ 1`, the sender emits
exactly `ceil(size / C)` binary messages (all after the single metadata
frame), and for an empty file it emits zero binary messages. -/
theorem c3_chunk_count (name : String) (content : List Nat) (C : Nat)
    (hC : 1 ≤ C) :
    ((sendFile name content C).filter isBinary).length =
      ceilDiv content.length C ∧
    ((sendFile name ([] : List Nat) C).filter isBinary).length = 0 := by
  have hfil : ∀ (nm : String) (cnt : List Nat),
      ((sendFile nm cnt C).filter isBinary).length =
        ceilDiv cnt.length C := by
    intro nm cnt
    rw [sendFile]
    simp [isBinary, filter_isBinary_chunks, sendChunks_length cnt C hC]
  refine ⟨hfil name content, ?_⟩
  rw [hfil name []]
  simpa using ceilDiv_zero_left C

/-- C3, witness: chunk-count formula at a concrete input
(3 bytes, chunk size 2, hence 2 binary messages). -/
theorem c3_chunk_count_witness :
    ((sendFile "a" [1, 2, 3] 2).filter isBinary).length =
      ceilDiv ([1, 2, 3] : List Nat).length 2 ∧
    ((sendFile "a" ([] : List Nat) 2).filter isBinary).length = 0 :=
  c3_chunk_count "a" [1, 2, 3] 2 (by omega)

/-- C4: for every file of size `S ≥ 1` and `chunkSize = C ≥ 1`, every
chunk sent has length exactly `C` except the last, whose length equals
`S - C * (ceil(S/C) - 1)`, and that final length lies in `[1, C]`. -/
theorem c4_chunk_lengths (content : List Nat) (C : Nat)
    (hC : 1 ≤ C) (hS : 1 ≤ content.length) :
    (∀ i, i + 1 < ceilDiv content.length C →
        ((sendChunks content C).getD i []).length = C) ∧
    ((sendChunks content C).getD (ceilDiv content.length C - 1) []).length =
      content.length - C * (ceilDiv content.length C - 1) ∧
    1 ≤ content.length - C * (ceilDiv content.length C - 1) ∧
    content.length - C * (ceilDiv content.length C - 1) ≤ C := by
  have hub := le_mul_ceilDiv (a := content.length) hS hC
  have hlb := mul_ceilDiv_pred_lt (a := content.length) hS hC
  have hn : 0 < ceilDiv content.length C := ceilDiv_pos hS hC
  have hmul : C * ceilDiv content.length C =
      C * (ceilDiv content.length C - 1) + C := by
    calc C * ceilDiv content.length C
        = C * ((ceilDiv content.length C - 1) + 1) := by
          rw [Nat.sub_add_cancel hn]
      _ = C * (ceilDiv content.length C - 1) + C := Nat.mul_succ C _
  refine ⟨?_, ?_, by omega, by omega⟩
  · intro i hi
    have hle : C * (i + 1) ≤ C * (ceilDiv content.length C - 1) :=
      Nat.mul_le_mul_left C (by omega)
    have hsucc : C * (i + 1) = C * i + C := Nat.mul_succ C i
    have hlt : C * i < content.length := by omega
    rw [sendChunks_getD content C hC i, if_pos hlt]
    simp only [getFileChunk, List.length_take, List.length_drop]
    omega
  · rw [sendChunks_getD content C hC _, if_pos hlb]
    simp only [getFileChunk, List.length_take, List.length_drop]
    omega

/-- C4, witness: chunk lengths at a concrete input (5 bytes, chunk size 2:
chunks of lengths 2, 2, 1; the final length `5 - 2 * 2 = 1` is in
`[1, 2]`). -/
theorem c4_chunk_lengths_witness :
    (∀ i, i + 1 < ceilDiv ([1, 2, 3, 4, 5] : List Nat).length 2 →
        ((sendChunks [1, 2, 3, 4, 5] 2).getD i []).length = 2) ∧
    ((sendChunks [1, 2, 3, 4, 5] 2).getD
        (ceilDiv ([1, 2, 3, 4, 5] : List Nat).length 2 - 1) []).length =
      ([1, 2, 3, 4, 5] : List Nat).length -
        2 * (ceilDiv ([1, 2, 3, 4, 5] : List Nat).length 2 - 1) ∧
    1 ≤ ([1, 2, 3, 4, 5] : List Nat).length -
        2 * (ceilDiv ([1, 2, 3, 4, 5] : List Nat).length 2 - 1) ∧
    ([1, 2, 3, 4, 5] : List Nat).length -
        2 * (ceilDiv ([1, 2, 3, 4, 5] : List Nat).length 2 - 1) ≤ 2 :=
  c4_chunk_lengths [1, 2, 3, 4, 5] 2 (by omega) (by simp)

/-- C5: the sender's message stream starts with the single text metadata
frame, followed only by binary chunks (so no chunk ever precedes the
metadata); and while the receiver's `fileInfo` is null no message is
accepted as a binary chunk — the buffer, the received-chunk counter and
the outputs are untouched — and a metadata frame is parsed and stored, so
the first message on a fresh session is always interpreted as
metadata. -/
theorem c5_metadata_first (name : String) (content : List Nat) (C : Nat)
    (s : RxState) (m : Message) (info : FileInfo)
    (h : s.fileInfo = none) :
    sendFile name content C =
      Message.meta ⟨name, content.length, C⟩ ::
        (sendChunks content C).map Message.chunk ∧
    (onMessage s m).1.fileBuf = s.fileBuf ∧
    (onMessage s m).1.chunksSoFar = s.chunksSoFar ∧
    (onMessage s m).2.progress = none ∧
    (onMessage s m).2.completed = none ∧
    (onMessage s (Message.meta info)).1.fileInfo = some info := by
  refine ⟨rfl, ?_, ?_, ?_, ?_, ?_⟩ <;> cases m <;> simp [onMessage, h]

/-- C5, witness: the metadata-first property at a concrete input, with a
fresh receiver fed a binary chunk (ignored) and a metadata frame
(stored). -/
theorem c5_metadata_first_witness :
    sendFile "a" [1, 2] 2 =
      Message.meta ⟨"a", ([1, 2] : List Nat).length, 2⟩ ::
        (sendChunks [1, 2] 2).map Message.chunk ∧
    (onMessage initRx (Message.chunk [9])).1.fileBuf = initRx.fileBuf ∧
    (onMessage initRx (Message.chunk [9])).1.chunksSoFar =
      initRx.chunksSoFar ∧
    (onMessage initRx (Message.chunk [9])).2.progress = none ∧
    (onMessage initRx (Message.chunk [9])).2.completed = none ∧
    (onMessage initRx (Message.meta ⟨"b", 3, 1⟩)).1.fileInfo =
      some ⟨"b", 3, 1⟩ :=
  c5_metadata_first "a" [1, 2] 2 initRx (Message.chunk [9]) ⟨"b", 3, 1⟩ rfl

/-- C6, counterexample to the claim as stated: a present but non-numeric
`chunkSize` value does NOT fall back to the default 16384 — the code
computes `Number("abc")`, i.e. `NaN` (modelled as `none`). -/
theorem c6_nonNumeric_counterexample :
    resolveChunkSize [("chunkSize", "abc")] ≠ some 16384 := by
  decide

/-- C6 (amended): transfer parameter resolution is a pure function of the
raw key-value mapping; when `chunkSize` or `chunkInterval` is unspecified
it yields the defaults `chunkSize = 16384`, `chunkInterval = 0` (in
particular an empty parameter source yields both defaults), and parsing
`{chunkSize: "4096", chunkInterval: "50"}` yields the numbers 4096 and
50; a present non-numeric value, however, yields `NaN` (`none`), not the
default. -/
theorem c6_param_resolution (params : List (String × String))
    (h1 : paramsGet params "chunkSize" = none)
    (h2 : paramsGet params "chunkInterval" = none) :
    resolveChunkSize params = some 16384 ∧
    resolveChunkInterval params = some 0 ∧
    resolveChunkSize [("chunkSize", "4096"), ("chunkInterval", "50")] =
      some 4096 ∧
    resolveChunkInterval [("chunkSize", "4096"), ("chunkInterval", "50")] =
      some 50 ∧
    resolveChunkSize [("chunkSize", "abc")] = none := by
  refine ⟨?_, ?_, by decide, by decide, by decide⟩
  · simp only [resolveChunkSize, h1]
  · simp only [resolveChunkInterval, h2]

/-- C6, witness: parameter resolution on the empty parameter source,
which yields both defaults. -/
theorem c6_param_resolution_witness :
    resolveChunkSize [] = some 16384 ∧
    resolveChunkInterval [] = some 0 ∧
    resolveChunkSize [("chunkSize", "4096"), ("chunkInterval", "50")] =
      some 4096 ∧
    resolveChunkInterval [("chunkSize", "4096"), ("chunkInterval", "50")] =
      some 50 ∧
    resolveChunkSize [("chunkSize", "abc")] = none :=
  c6_param_resolution [] rfl rfl

/-- C7, counterexample to the claim as stated: declared size 10, chunk
size 5 (so `nChunks = 2`), but the two binary messages carry only 7
bytes in total; the receiver exposes the 7-byte file as completed —
silently, with no size check and no error — contradicting the claim that
the mismatch is detected and surfaced as a fatal session error. -/
theorem c7_mismatch_counterexample :
    completions [Message.meta ⟨"f", 10, 5⟩,
        Message.chunk [1, 2, 3], Message.chunk [4, 5, 6, 7]] =
      [Completed.mk "f" [1, 2, 3, 4, 5, 6, 7]] ∧
    ([1, 2, 3, 4, 5, 6, 7] : List Nat).length ≠ 10 := by
  exact ⟨rfl, by decide⟩

/-- C7 (amended): the receiver performs no size check at all — after
`nChunks` binary messages it exposes the concatenation of the accumulated
buffer as the completed file whether or not its byte count equals the
declared `size`; no error is surfaced. -/
theorem c7_no_size_check (info : FileInfo) (cs : List (List Nat))
    (hne : cs ≠ [])
    (hlen : cs.length = ceilDiv info.size info.chunkSize) :
    completions (Message.meta info :: cs.map Message.chunk) =
      [Completed.mk info.name cs.flatten] := by
  obtain ⟨h1, h2, h3⟩ := runRx_chunks info (ceilDiv info.size info.chunkSize)
    cs 0 [] hne (by omega)
  have hstep : onMessage initRx (Message.meta info) =
      (⟨0, [], some info, ceilDiv info.size info.chunkSize⟩,
       ⟨none, none⟩) := rfl
  rw [completions]
  simp only [runRx, hstep]
  simpa using h3

/-- C7, witness: the no-size-check behaviour at the mismatching input
(declared size 10, accumulated 7 bytes). -/
theorem c7_no_size_check_witness :
    completions (Message.meta ⟨"f", 10, 5⟩ ::
        ([[1, 2, 3], [4, 5, 6, 7]] : List (List Nat)).map Message.chunk) =
      [Completed.mk "f" ([[1, 2, 3], [4, 5, 6, 7]] : List (List Nat)).flatten] :=
  c7_no_size_check ⟨"f", 10, 5⟩ [[1, 2, 3], [4, 5, 6, 7]]
    (by simp) (by decide)

/-- C8: on both the sender and the receiver (fed the sender's stream),
the progress counter takes the values `1, 2, ..., nChunks` in order —
hence it is non-decreasing, never exceeds `nChunks`, and its last value
at completion is exactly `nChunks` (when any chunk is sent at all). -/
theorem c8_progress_monotone (name : String) (content : List Nat) (C : Nat)
    (hC : 1 ≤ C) :
    sendProgress content C = List.range' 1 (ceilDiv content.length C) ∧
    rxProgress (sendFile name content C) =
      List.range' 1 (ceilDiv content.length C) ∧
    List.Chain' (fun a b => a ≤ b) (sendProgress content C) ∧
    List.Chain' (fun a b => a ≤ b) (rxProgress (sendFile name content C)) ∧
    (∀ x ∈ sendProgress content C, x ≤ ceilDiv content.length C) ∧
    (∀ x ∈ rxProgress (sendFile name content C),
      x ≤ ceilDiv content.length C) ∧
    (0 < content.length →
      (sendProgress content C).getLast? =
        some (ceilDiv content.length C) ∧
      (rxProgress (sendFile name content C)).getLast? =
        some (ceilDiv content.length C)) := by
  have hsend := sendProgress_eq content C hC
  have hrx := rxProgress_sendFile name content C hC
  have hmem : ∀ x ∈ List.range' 1 (ceilDiv content.length C),
      x ≤ ceilDiv content.length C := by
    intro x hx
    rw [List.mem_range'_1] at hx
    omega
  refine ⟨hsend, hrx, ?_, ?_, ?_, ?_, ?_⟩
  · rw [hsend]; exact chain'_le_range' _ _
  · rw [hrx]; exact chain'_le_range' _ _
  · rw [hsend]; exact hmem
  · rw [hrx]; exact hmem
  · intro hL
    have hpos : 0 < ceilDiv content.length C := ceilDiv_pos hL hC
    have hlast := getLast?_range' 1 (ceilDiv content.length C) hpos
    constructor
    · rw [hsend, hlast]; congr 1; omega
    · rw [hrx, hlast]; congr 1; omega

/-- C8, witness: progress monotonicity at a concrete input (3 bytes,
chunk size 2, so the progress sequence is `[1, 2]` on both sides). -/
theorem c8_progress_monotone_witness :
    sendProgress [5, 6, 7] 2 =
      List.range' 1 (ceilDiv ([5, 6, 7] : List Nat).length 2) ∧
    rxProgress (sendFile "a" [5, 6, 7] 2) =
      List.range' 1 (ceilDiv ([5, 6, 7] : List Nat).length 2) ∧
    List.Chain' (fun a b => a ≤ b) (sendProgress [5, 6, 7] 2) ∧
    List.Chain' (fun a b => a ≤ b)
      (rxProgress (sendFile "a" [5, 6, 7] 2)) ∧
    (∀ x ∈ sendProgress [5, 6, 7] 2,
      x ≤ ceilDiv ([5, 6, 7] : List Nat).length 2) ∧
    (∀ x ∈ rxProgress (sendFile "a" [5, 6, 7] 2),
      x ≤ ceilDiv ([5, 6, 7] : List Nat).length 2) ∧
    (0 < ([5, 6, 7] : List Nat).length →
      (sendProgress [5, 6, 7] 2).getLast? =
        some (ceilDiv ([5, 6, 7] : List Nat).length 2) ∧
      (rxProgress (sendFile "a" [5, 6, 7] 2)).getLast? =
        some (ceilDiv ([5, 6, 7] : List Nat).length 2)) :=
  c8_progress_monotone "a" [5, 6, 7] 2 (by omega)

/-- C9: whenever handling a message completes an assembly (a completed
file is exposed), the resulting receiver state is exactly the initial
empty state — metadata null, zero chunks received, empty buffer — and a
subsequent metadata frame on the same channel is again parsed and stored
as metadata, starting a new transfer. -/
theorem c9_reset_after_completion (s : RxState) (m : Message)
    (h : ((onMessage s m).2).completed.isSome = true) :
    (onMessage s m).1 = initRx ∧
    (onMessage s m).1.fileInfo = none ∧
    (onMessage s m).1.chunksSoFar = 0 ∧
    (onMessage s m).1.fileBuf = [] ∧
    (∀ info, (onMessage (onMessage s m).1 (Message.meta info)).1.fileInfo =
      some info) := by
  rcases hs : s.fileInfo with _ | info
  · cases m <;> simp [onMessage, hs] at h
  · by_cases hlt : s.chunksSoFar + 1 < s.nChunks
    · simp [onMessage, hs, hlt] at h
    · simp [onMessage, hs, hlt, initRx]

/-- C9, witness: the reset at a concrete completing step (one expected
chunk, one received). -/
theorem c9_reset_after_completion_witness :
    (onMessage ⟨0, [], some ⟨"f", 1, 1⟩, 1⟩ (Message.chunk [9])).1 =
      initRx ∧
    (onMessage ⟨0, [], some ⟨"f", 1, 1⟩, 1⟩ (Message.chunk [9])).1.fileInfo =
      none ∧
    (onMessage ⟨0, [], some ⟨"f", 1, 1⟩, 1⟩
        (Message.chunk [9])).1.chunksSoFar = 0 ∧
    (onMessage ⟨0, [], some ⟨"f", 1, 1⟩, 1⟩ (Message.chunk [9])).1.fileBuf =
      [] ∧
    (∀ info,
      (onMessage (onMessage ⟨0, [], some ⟨"f", 1, 1⟩, 1⟩
          (Message.chunk [9])).1 (Message.meta info)).1.fileInfo =
        some info) :=
  c9_reset_after_completion ⟨0, [], some ⟨"f", 1, 1⟩, 1⟩
    (Message.chunk [9]) rfl

/-- C10: the sender's chunk-emission loop terminates for every file size
and every `chunkSize = C ≥ 1` (the loop is a total function, offset
increasing by `C` each iteration), and it performs exactly
`ceil(size / C)` iterations. -/
theorem c10_loop_iterations (content : List Nat) (C : Nat) (hC : 1 ≤ C) :
    (sendLoop content C 0 0).length = ceilDiv content.length C := by
  rw [sendLoop_length content C hC 0 0, Nat.sub_zero]

/-- C10, witness: the loop iteration count at a concrete input (3 bytes,
chunk size 2, hence 2 iterations). -/
theorem c10_loop_iterations_witness :
    (sendLoop [1, 2, 3] 2 0 0).length =
      ceilDiv ([1, 2, 3] : List Nat).length 2 :=
  c10_loop_iterations [1, 2, 3] 2 (by omega)

end FileTransfer
